import Mathlib

/-!
Verification of the contraction expander (src/expander.py).

The development shallowly embeds the module: Python strings are Lean
`String`, Python lists are Lean `List`, Python integers are `Int` (indices
may be negative and are normalized exactly as Python does), Python
dictionaries are association lists looked up by first match (insertion
order is iteration order, matching CPython), and a Python run that raises
an exception is modelled by an `Option` result of `none`.

A Python sentence variable may hold either (word, tag) tuples or bare
strings (the source reuses the same variable for both), so tokens are
embedded as a sum type `PTok`.  The contraction dictionary and the
disambiguation dictionary are loaded from data files that are not part of
the source tree, so they are parameters of the embedded functions, exactly
as they are parameters of the Python helpers.
-/

/-- Python `str.lower()` (ASCII case mapping suffices for the data used). -/
def pyLower (s : String) : String := String.mk (s.data.map Char.toLower)

/-- Python `str.capitalize()`: upper-case the first character and
lower-case every remaining character of the whole string. -/
def pyCapitalize (s : String) : String :=
  match s.data with
  | [] => ""
  | c :: cs => String.mk (c.toUpper :: cs.map Char.toLower)

/-- Core of Python `str.title()`: a letter is upper-cased when the
previous character is not a letter and lower-cased otherwise. -/
def pyTitleGo : Bool → List Char → List Char
  | _, [] => []
  | prevAlpha, c :: cs =>
    if c.isAlpha then
      (if prevAlpha then c.toLower else c.toUpper) :: pyTitleGo true cs
    else
      c :: pyTitleGo false cs

/-- Python `str.title()`. -/
def pyTitle (s : String) : String := String.mk (pyTitleGo false s.data)

/-- Python `str.split()` with no argument: split on whitespace and drop
empty fields.  Also used to model `nltk.word_tokenize` on the candidate
expansion phrases; modelled from the spec: the external tokenizer splits a
candidate phrase into its words, and every phrase in the expansion
dictionary is a plain space-separated word sequence. -/
def pySplit (s : String) : List String :=
  ((s.data.splitOnP Char.isWhitespace).map String.mk).filter (fun w => w ≠ "")

/-- Normalize a Python index for reading or writing: negative indices
count from the end of the list. -/
def pyNorm (n : Nat) (i : Int) : Int := if i < 0 then (n : Int) + i else i

/-- Python `l[i]`: `none` models the `IndexError`. -/
def pyGet {α : Type} (l : List α) (i : Int) : Option α :=
  let j := pyNorm l.length i
  if 0 ≤ j then l.get? j.toNat else none

/-- Python `l[i] = a`: `none` models the `IndexError`. -/
def pySet {α : Type} (l : List α) (i : Int) (a : α) : Option (List α) :=
  let j := pyNorm l.length i
  if 0 ≤ j ∧ j < (l.length : Int) then some (l.set j.toNat a) else none

/-- Clamp one endpoint of a Python slice. -/
def sliceNorm (n : Nat) (i : Int) : Nat :=
  if i < 0 then (max ((n : Int) + i) 0).toNat else min i.toNat n

/-- Python `l[a:b]` (slicing never raises). -/
def pySlice {α : Type} (l : List α) (a b : Int) : List α :=
  (l.take (sliceNorm l.length b)).drop (sliceNorm l.length a)

/-- Python `max` over a list of counts: `none` models the `ValueError`
on an empty sequence. -/
def pyMax : List Nat → Option Nat
  | [] => none
  | a :: t => some (t.foldl max a)

/-- Sequence a fallible map over a list; any failure models the Python
exception propagating out of the whole call. -/
def mapOpt {α β : Type} (f : α → Option β) : List α → Option (List β)
  | [] => some []
  | a :: l =>
    match f a, mapOpt f l with
    | some b, some bs => some (b :: bs)
    | _, _ => none

/-- A value held in a Python sentence list: either a (word, tag) tuple or
a bare string.  The source stores both shapes in the same variables. -/
abbrev PTok : Type := Sum (String × String) String

/-- A part-of-speech tagged sentence, as produced by the tagging
collaborator. -/
abbrev TaggedSent : Type := List (String × String)

/-- The contraction dictionary: surface string to candidate phrases. -/
abbrev CMap : Type := List (String × List String)

/-- A disambiguation key: a Python tuple holding (word, tag) pairs of the
span followed by bare trailing tags, embedded with the same `PTok` sum. -/
abbrev DKey : Type := List PTok

/-- The disambiguation dictionary: key to (candidate phrase, corpus
count) entries, in insertion order. -/
abbrev DMap : Type := List (DKey × List (String × Nat))

/-- Python `x[0]` on a sentence element: the word of a tuple, or the
first character of a bare string (`none` models the `IndexError`). -/
def tokSub0 : PTok → Option String
  | Sum.inl wp => some wp.1
  | Sum.inr s => s.data.head?.map (fun c => String.mk [c])

/-- Python `x[1]` on a sentence element: the tag of a tuple, or the
second character of a bare string (`none` models the `IndexError`). -/
def tokSub1 : PTok → Option String
  | Sum.inl wp => some wp.2
  | Sum.inr s => (s.data.get? 1).map (fun c => String.mk [c])

/-- Dictionary lookup in the contraction dictionary. -/
def lookupC (m : CMap) (s : String) : Option (List String) :=
  match m.find? (fun p => p.1 = s) with
  | some p => some p.2
  | none => none

/-- Dictionary lookup in the disambiguation dictionary. -/
def lookupD (m : DMap) (key : DKey) : Option (List (String × Nat)) :=
  match m.find? (fun p => p.1 = key) with
  | some p => some p.2
  | none => none

/-- Lines 30-45 (`_extract_contractions`), the index-collecting loop with
the running index made explicit.  `none` models the `IndexError` raised
by `word_pos[0][0]` on an empty word. -/
def collectIdx (i : Nat) : TaggedSent → Option (List Nat)
  | [] => some []
  | wp :: rest =>
    match wp.1.data with
    | [] => none
    | c :: _ =>
      if c = '\'' then
        if wp.2 ≠ "POS" then (collectIdx (i + 1) rest).map (fun l => i :: l)
        else collectIdx (i + 1) rest
      else if wp.1 = "n't" then (collectIdx (i + 1) rest).map (fun l => i :: l)
      else collectIdx (i + 1) rest

/-- Lines 18-45, `_extract_contractions`: the outer `Option` models a
raised exception, the inner one the implicit `None` return on an empty
index list. -/
def extract_contractions (sent : TaggedSent) : Option (Option (List Nat)) :=
  (collectIdx 0 sent).map (fun l => if l.isEmpty then none else some l)

/-- Lines 48-68, `_consecutive_sub_list`.  The source groups
`enumerate(int_list)` by the key `x[1] - x[0]`; two adjacent elements get
equal keys exactly when the later one is the earlier one plus 1, so the
grouping splits the list precisely at the positions where the step is not
plus 1, which is what this recursion does. -/
def consecutive_sub_list : List Int → List (List Int)
  | [] => []
  | [x] => [[x]]
  | x :: y :: rest =>
    match consecutive_sub_list (y :: rest) with
    | [] => [[x]]
    | r :: rs => if y = x + 1 then (x :: r) :: rs else [x] :: r :: rs

/-- The outcome of one iteration of the loop of `_extract_replacements`:
the iteration raises, skips the run via `continue`, or yields a tuple. -/
inductive RRes : Type
  | crash : RRes
  | skip : RRes
  | yield : List Int × List String × List (List String) → RRes
deriving DecidableEq

/-- A yielded replacement tuple: span indices, original words, candidate
word sequences. -/
abbrev ReplTuple : Type := List Int × List String × List (List String)

/-- Line 163: the span formed from a run by prepending the index before
its first element (runs produced by `consecutive_sub_list` are nonempty,
so the default of `headD` is never used). -/
def consRun (run : List Int) : List Int := (run.headD 0 - 1) :: run

/-- Lines 167-168: the surface words covered by a span, via a Python
slice (which silently normalizes a negative start index). -/
def contrOf (sent : TaggedSent) (consecutive : List Int) : List String :=
  (pySlice sent (consecutive.headD 0) (consecutive.getLastD 0 + 1)).map Prod.fst

/-- The joined lookup key of a run, `''.join(contr)`. -/
def joinedOf (sent : TaggedSent) (run : List Int) : String :=
  String.join (contrOf sent (consRun run))

/-- Lines 160-188, the body of the loop of `_extract_replacements` for a
single run.  When the key misses exactly but its lower-casing hits and
the first character is not upper-case, the source assigns nothing to
`expanded`, so the iteration raises (an unbound local on the first run,
or a type error tokenizing the stale value of a previous run): `crash`. -/
def resolveRun (cmap : CMap) (sent : TaggedSent) (run : List Int) : RRes :=
  match lookupC cmap (joinedOf sent run) with
  | some expanded => RRes.yield (consRun run, contrOf sent (consRun run), expanded.map pySplit)
  | none =>
    match lookupC cmap (pyLower (joinedOf sent run)) with
    | some exp2 =>
      match (joinedOf sent run).data.head? with
      | none => RRes.crash
      | some c =>
        if c.isUpper then
          RRes.yield (consRun run, contrOf sent (consRun run),
            (exp2.map pyCapitalize).map pySplit)
        else RRes.crash
    | none => RRes.skip

/-- The loop of `_extract_replacements` over the runs, materialized
eagerly: a crash anywhere aborts the whole surrounding call, exactly as
the Python exception would. -/
def processRuns (cmap : CMap) (sent : TaggedSent) : List (List Int) → Option (List ReplTuple)
  | [] => some []
  | run :: rest =>
    match resolveRun cmap sent run with
    | RRes.crash => none
    | RRes.skip => processRuns cmap sent rest
    | RRes.yield t => (processRuns cmap sent rest).map (fun l => t :: l)

/-- Lines 140-188, `_extract_replacements`. -/
def extract_replacements (idx_lst : List Nat) (sent : TaggedSent) (contractions : CMap) :
    Option (List ReplTuple) :=
  processRuns contractions sent (consecutive_sub_list (idx_lst.map Int.ofNat))

/-- Lines 191-203, `_remove_pos_tags`: `word_pos[0]` for every element.
The source also calls it on lists of bare strings (via the sentence
variable reuse in `expand_contractions`), where `word_pos[0]` is the first
character of the word, hence the `PTok` domain. -/
def remove_pos_tags (sent : List PTok) : Option (List String) :=
  mapOpt tokSub0 sent

/-- Lines 96-100 of `_disambiguate`: the lookup tuple, the span elements
followed by the tags of the `add_tags` tokens after the span.  `none`
models the `IndexError` on an empty index list or a missing trailing
token. -/
def disambKey (sent : List PTok) (idxs : List Int) (add_tags : Nat) : Option DKey :=
  match idxs.getLast? with
  | none => none
  | some last =>
    match mapOpt (fun i => pyGet sent i) idxs with
    | none => none
    | some pairs =>
      match mapOpt (fun j => (pyGet sent j).bind tokSub1)
          ((List.range add_tags).map (fun j => last + 1 + (j : Int))) with
      | none => none
      | some tags => some (pairs ++ tags.map Sum.inr)

/-- Lines 102-128 of `_disambiguate`: pick the replacement.  The inner
`Option` is the Python value of `replacement` (`none` for the empty list,
`some` for a chosen phrase); the outer `none` models a raised exception.
When `argmax` is false the source sets `replacement = []` but lacks an
`else`, so control falls through into the maximum computation below and
the assignment there overwrites it; the `argmax` argument therefore never
changes the result. -/
def chooseReplacement (dmap : DMap) (key : DKey) (argmax : Bool) : Option (Option String) :=
  match lookupD dmap key with
  | none => some none
  | some vals =>
    if vals.length = 1 then
      match vals.head? with
      | some p => some (some p.1)
      | none => none
    else
      let _ := argmax
      match pyMax (vals.map Prod.snd) with
      | none => none
      | some m =>
        if (vals.map Prod.snd).count m = 1 then
          match vals.find? (fun p => p.2 = m) with
          | some p => some (some p.1)
          | none => none
        else some none

/-- Lines 131-133 of `_disambiguate`: write the words of the chosen
replacement into the span positions, Python `enumerate` style. -/
def applyLoop (ws : List String) : List (Nat × Int) → List String → Option (List String)
  | [], words => some words
  | (i, idx) :: rest, words =>
    match ws.get? i with
    | none => none
    | some w =>
      match pySet words idx w with
      | none => none
      | some words2 => applyLoop ws rest words2

/-- Lines 130-133 of `_disambiguate`: strip the tags, then apply the
replacement words (if any) at the span indices. -/
def applyReplacement (sent : List PTok) (idxs : List Int) (repl : Option String) :
    Option (List String) :=
  match remove_pos_tags sent with
  | none => none
  | some words =>
    match repl with
    | none => some words
    | some r => applyLoop (pySplit r) idxs.enum words

/-- Lines 71-137, `_disambiguate`.  Only the index component of the
replacement tuple is read by the source, so only it is passed.  The
second component of the result records the tuple written into `sent[0]`
by line 92, which mutates the caller's list in place; the caller needs it
when its working copy aliases the argument.  `none` models a raised
exception (for instance `sent[0][1]` on a one-character bare string). -/
def disambiguate (sent : List PTok) (idxs : List Int) (dmap : DMap) (add_tags : Nat)
    (argmax : Bool) : Option (List String × Option PTok) :=
  match pyGet sent 0 with
  | none => none
  | some t0 =>
    match tokSub0 t0 with
    | none => none
    | some s00 =>
      match s00.data.head? with
      | none => none
      | some c =>
        if c.isUpper && (String.mk [c] != "<NE>") then
          match tokSub1 t0 with
          | none => none
          | some t1 =>
            match pySet sent 0 (Sum.inl (pyLower s00, t1)) with
            | none => none
            | some sent1 =>
              match disambKey sent1 idxs add_tags with
              | none => none
              | some key =>
                match chooseReplacement dmap key argmax with
                | none => none
                | some repl =>
                  match applyReplacement sent1 idxs repl with
                  | none => none
                  | some out =>
                    match out with
                    | [] => none
                    | w :: ws => some (pyTitle w :: ws, some (Sum.inl (pyLower s00, t1)))
        else
          match disambKey sent idxs add_tags with
          | none => none
          | some key =>
            match chooseReplacement dmap key argmax with
            | none => none
            | some repl =>
              match applyReplacement sent idxs repl with
              | none => none
              | some out => some (out, none)

/-- Lines 294-295 of `expand_contractions`: write an unambiguous
expansion into the working copy `tmp` (whose cells are Python values, so
bare strings are written as `Sum.inr`). -/
def applyTmp (ws : List String) : List (Nat × Int) → List PTok → Option (List PTok)
  | [], tmp => some tmp
  | (i, idx) :: rest, tmp =>
    match ws.get? i with
    | none => none
    | some w =>
      match pySet tmp idx (Sum.inr w) with
      | none => none
      | some tmp2 => applyTmp ws rest tmp2

/-- Lines 288-300, the loop over the replacement tuples of one sentence.
State: the sentence variable `sent` (which the source lets hold either
the tagged list, the working copy, or a fresh word list), the working
copy `tmp`, and whether `sent` currently aliases `tmp` (after line 296
they are the same list object, so the in-place write of line 92 of
`_disambiguate` lands in `tmp` as well). -/
def procRepls (dmap : DMap) (add_tags : Nat) :
    List ReplTuple → List PTok → List PTok → Bool → Option (List PTok × List PTok × Bool)
  | [], sentSt, tmp, aliased => some (sentSt, tmp, aliased)
  | (idxs, _contr, expanded) :: rest, sentSt, tmp, aliased =>
    if expanded.length = 1 then
      match applyTmp (expanded.headD []) idxs.enum tmp with
      | none => none
      | some tmp2 => procRepls dmap add_tags rest tmp2 tmp2 true
    else
      match disambiguate sentSt idxs dmap add_tags true with
      | none => none
      | some (outWords, mutTok) =>
        let tmp2opt :=
          if aliased then
            match mutTok with
            | some t => pySet tmp 0 t
            | none => some tmp
          else some tmp
        match tmp2opt with
        | none => none
        | some tmp2 => procRepls dmap add_tags rest (outWords.map Sum.inr) tmp2 false

/-- Lines 280-301 of `expand_contractions`: process one tagged sentence
(the `is_split=True`, `use_ner=False` path).  The result element type is
`PTok` because the source appends whatever the sentence variable holds:
bare words normally, but the still-tagged tuples when the locator found
indices and yet every span was skipped. -/
def expandSentence (cmap : CMap) (dmap : DMap) (add_tags : Nat) (tagged : TaggedSent) :
    Option (List PTok) := do
  let idxRes ← extract_contractions tagged
  let tmp : List PTok := tagged.map (fun wp => Sum.inr wp.1)
  match idxRes with
  | none => some tmp
  | some idx => do
    let repls ← extract_replacements idx tagged cmap
    let st ← procRepls dmap add_tags repls (tagged.map Sum.inl) tmp false
    some st.1

/-- Lines 256-263: the number of trailing tags, counted as the
`isinstance(element, str)` elements of the first key of the
disambiguation dictionary (`none` models the `IndexError` on an empty
dictionary). -/
def addTagsOf (dmap : DMap) : Option Nat :=
  match dmap.head? with
  | none => none
  | some e => some (e.1.countP (fun x => match x with | Sum.inr _ => true | Sum.inl _ => false))

/-- Lines 206-315, `expand_contractions`, on the `is_split=True`,
`use_ner=False` path.  The tagging collaborator is a parameter; modelled
from the spec: it returns the tokens of each sentence in input order as
(word, tag) pairs.  The two dictionaries are parameters because they are
loaded from resource files outside the source tree. -/
def expand_contractions (tagger : List String → TaggedSent) (cmap : CMap) (dmap : DMap)
    (sent_list : List (List String)) : Option (List (List PTok)) := do
  let k ← addTagsOf dmap
  mapOpt (fun s => expandSentence cmap dmap k (tagger s)) sent_list

/-- The marker predicate exactly as claim C1 states it: the surface text
begins with an apostrophe and the tag is not the possessive tag, or the
surface text is the literal negation clitic. -/
def claimMarker (wp : String × String) : Bool :=
  (wp.1.data.head? = some '\'' && wp.2 ≠ "POS") || wp.1 = "n't"

/-- The indices (counting from `n`) of the tokens satisfying
`claimMarker`, the reference list for claim C1. -/
def claimIndicesFrom (n : Nat) : TaggedSent → List Nat
  | [] => []
  | wp :: rest =>
    if claimMarker wp then n :: claimIndicesFrom (n + 1) rest
    else claimIndicesFrom (n + 1) rest

/-- The hypothesis of claim C2 as a decidable check: the key is absent
from the disambiguation dictionary, or at least two candidates are tied
at the maximum count. -/
def absentOrTie (dmap : DMap) (key : DKey) : Bool :=
  match lookupD dmap key with
  | none => true
  | some vals =>
    match pyMax (vals.map Prod.snd) with
    | none => false
    | some m => decide (2 ≤ (vals.map Prod.snd).count m)

/-- Concrete contraction dictionary for the index-0-run analysis. -/
def cmap4 : CMap := [("'s", ["is"])]

/-- A one-entry disambiguation dictionary whose key shape gives
`add_tags = 1` and which never matches any query. -/
def dmap1 : DMap := [([Sum.inr "X"], [("z", 1)])]

/-- A tagged sentence with one unknown contraction. -/
def sent7 : TaggedSent := [("foo", "NN"), ("'s", "VBZ"), ("bar", "NN")]

/-- A tagged sentence used to exercise the locator on a possessive. -/
def sentC1 : TaggedSent := [("I", "PRP"), ("'m", "VBP"), ("It", "PRP"), ("'s", "POS")]

/-- Disambiguation key of the ambiguous span of the `a'd` sentences. -/
def KA : DKey := [Sum.inl ("a", "NN"), Sum.inl ("'d", "MD"), Sum.inr "VB"]

/-- Disambiguation dictionary resolving `a'd` uniquely by count. -/
def dmapA : DMap := [(KA, [("a would", 3), ("a had", 1)])]

/-- Tagged sentence whose `'d`-span is ambiguous. -/
def toks3 : List PTok := [("a", "NN"), ("'d", "MD"), ("yy", "VB")].map Sum.inl

/-- Wordwise tags for the idempotence input (a deterministic stand-in for
the external tagger). -/
def tagOf9 (w : String) : String :=
  match [("a", "NN"), ("'d", "MD"), ("yy", "VB"), ("i", "PRP"), ("'m", "VBP"),
      ("am", "VBP")].find? (fun p => p.1 = w) with
  | some p => p.2
  | none => "X"

/-- Modelled from the spec: the tagging collaborator, here a fixed
wordwise tag assignment (same word always gets the same tag). -/
def tagger9 (ws : List String) : TaggedSent := ws.map (fun w => (w, tagOf9 w))

/-- Contraction dictionary for the idempotence input. -/
def cmap9 : CMap := [("a'd", ["a would", "a had"]), ("i'm", ["i am"])]

/-- Wordwise tags for the frame-property input. -/
def tagOf10 (w : String) : String :=
  match [("We", "PRP"), ("'re", "VBP"), ("sure", "JJ"), ("she", "PRP"), ("'d", "MD"),
      ("go", "VB")].find? (fun p => p.1 = w) with
  | some p => p.2
  | none => "X"

/-- Modelled from the spec: the tagging collaborator for the
frame-property input, again a fixed wordwise assignment. -/
def tagger10 (ws : List String) : TaggedSent := ws.map (fun w => (w, tagOf10 w))

/-- Contraction dictionary for the frame-property input. -/
def cmap10 : CMap := [("we're", ["we are"]), ("she'd", ["she would", "she had"])]

/-- Contraction dictionary (lower-case keys only) for the case-repair
counterexample. -/
def cmap6 : CMap := [("it's", ["it is", "it has"])]

/-- Contraction dictionary for the case-repair witness. -/
def cmap6w : CMap := [("she'd", ["she would"])]

/-- Disambiguation key matching the lowered sentence-initial span. -/
def KT : DKey := [Sum.inl ("it", "PRP"), Sum.inl ("'s", "VBZ"), Sum.inr "NN"]

/-- Disambiguation dictionary with a true tie at the maximum count. -/
def dmapT : DMap := [(KT, [("it is", 2), ("it has", 2)])]

/-- Single-candidate disambiguation dictionary for the capitalization
counterexample. -/
def dmap8c : DMap := [(KT, [("it is", 2)])]

/-- Disambiguation key for the capitalization witness. -/
def K8w : DKey := [Sum.inl ("it", "PRP"), Sum.inl ("'s", "VBZ"), Sum.inr "RB"]

/-- Disambiguation dictionary resolving the capitalization witness to
`it is` by count. -/
def dmap8w : DMap := [(K8w, [("it is", 3), ("it has", 1)])]
theorem collect_eq (sent : TaggedSent) : ∀ n : Nat, (∀ wp ∈ sent, wp.1 ≠ "") →
    collectIdx n sent = some (claimIndicesFrom n sent) := by
  induction sent with
  | nil => intro n _; rfl
  | cons wp rest ih =>
    intro n h
    have hw : wp.1 ≠ "" := h wp (by simp)
    have hrest : ∀ q ∈ rest, q.1 ≠ "" := fun q hq => h q (by simp [hq])
    have ihr := ih (n + 1) hrest
    obtain ⟨c, cs, hd⟩ : ∃ c cs, wp.1.data = c :: cs := by
      cases hdd : wp.1.data with
      | nil => exact absurd (by apply String.ext; simp [hdd]) hw
      | cons a as => exact ⟨a, as, rfl⟩
    have hh : wp.1.data.head? = some c := by rw [hd]; rfl
    by_cases hc : c = '\''
    · by_cases hp : wp.2 = "POS"
      · have hnt : wp.1 ≠ "n't" := by
          intro he
          rw [he] at hh
          rw [show ("n't" : String).data.head? = some 'n' from rfl] at hh
          simp at hh
          rw [hc] at hh
          exact absurd hh (by decide)
        simp [collectIdx, hd, claimIndicesFrom, claimMarker, hh, hc, hp, hnt, ihr]
      · simp [collectIdx, hd, claimIndicesFrom, claimMarker, hh, hc, hp, ihr]
    · by_cases hn : wp.1 = "n't"
      · simp [collectIdx, hd, claimIndicesFrom, claimMarker, hh, hc, hn, ihr]
      · simp [collectIdx, hd, claimIndicesFrom, claimMarker, hh, hc, hn, ihr]

theorem csl_cons_cons (x y : Int) (rest : List Int) :
    consecutive_sub_list (x :: y :: rest)
      = match consecutive_sub_list (y :: rest) with
        | [] => [[x]]
        | r :: rs => if y = x + 1 then (x :: r) :: rs else [x] :: r :: rs := rfl

theorem csl_cons_ne_nil (x : Int) (l : List Int) : consecutive_sub_list (x :: l) ≠ [] := by
  cases l with
  | nil => simp [consecutive_sub_list]
  | cons y r =>
    rw [csl_cons_cons]
    cases h : consecutive_sub_list (y :: r) with
    | nil => simp
    | cons s ss => dsimp only; split <;> simp

theorem csl_head : ∀ (l : List Int) (s : List Int) (ss : List (List Int)),
    consecutive_sub_list l = s :: ss → s.head? = l.head? := by
  intro l s ss h
  match l with
  | [] => simp [consecutive_sub_list] at h
  | [x] =>
    simp [consecutive_sub_list] at h
    rw [h.1]
  | x :: y :: rest =>
    rw [csl_cons_cons] at h
    cases hc : consecutive_sub_list (y :: rest) with
    | nil => exact absurd hc (csl_cons_ne_nil y rest)
    | cons t ts =>
      rw [hc] at h
      by_cases he : y = x + 1 <;> simp [he] at h <;> rw [← h.1] <;> rfl

theorem csl_join (l : List Int) : (consecutive_sub_list l).flatten = l := by
  match l with
  | [] => rfl
  | [x] => rfl
  | x :: y :: rest =>
    have ih := csl_join (y :: rest)
    rw [csl_cons_cons]
    cases hc : consecutive_sub_list (y :: rest) with
    | nil => exact absurd hc (csl_cons_ne_nil y rest)
    | cons s ss =>
      rw [hc] at ih
      by_cases he : y = x + 1 <;> simp [he, List.flatten] at ih ⊢ <;> exact ih

theorem csl_runs (l : List Int) :
    ∀ r ∈ consecutive_sub_list l, r ≠ [] ∧ r.Chain' (fun a b => b = a + 1) := by
  match l with
  | [] => intro r hr; simp [consecutive_sub_list] at hr
  | [x] =>
    intro r hr
    simp [consecutive_sub_list] at hr
    subst hr
    simp
  | x :: y :: rest =>
    have ih := csl_runs (y :: rest)
    intro r hr
    rw [csl_cons_cons] at hr
    cases hc : consecutive_sub_list (y :: rest) with
    | nil => exact absurd hc (csl_cons_ne_nil y rest)
    | cons s ss =>
      rw [hc] at hr ih
      by_cases he : y = x + 1
      · simp only [he, if_pos rfl] at hr
        rcases List.mem_cons.mp hr with h1 | h2
        · subst h1
          have hs := ih s (by simp)
          have hhead : s.head? = some y := csl_head (y :: rest) s ss hc
          refine ⟨by simp, ?_⟩
          rw [List.chain'_cons']
          exact ⟨fun b hb => by rw [hhead] at hb; simp at hb; omega, hs.2⟩
        · exact ih r (by simp [h2])
      · simp only [he, if_neg he] at hr
        rcases List.mem_cons.mp hr with h1 | h2
        · subst h1; simp
        · exact ih r h2

theorem csl_maximal (l : List Int) :
    (consecutive_sub_list l).Chain' (fun r s => ∀ a ∈ r.getLast?, ∀ b ∈ s.head?, b ≠ a + 1) := by
  match l with
  | [] => simp [consecutive_sub_list]
  | [x] => simp [consecutive_sub_list]
  | x :: y :: rest =>
    have ih := csl_maximal (y :: rest)
    rw [csl_cons_cons]
    cases hc : consecutive_sub_list (y :: rest) with
    | nil => exact absurd hc (csl_cons_ne_nil y rest)
    | cons s ss =>
      rw [hc] at ih
      by_cases he : y = x + 1
      · dsimp only
        rw [if_pos he]
        have hsne : s ≠ [] := (csl_runs (y :: rest) s (by rw [hc]; simp)).1
        have hlast : (x :: s).getLast? = s.getLast? := by
          cases s with
          | nil => exact absurd rfl hsne
          | cons a as => simp [List.getLast?_cons_cons]
        rw [List.chain'_cons'] at ih ⊢
        refine ⟨fun t ht a ha b hb => ?_, ih.2⟩
        exact ih.1 t ht a (by rw [hlast] at ha; exact ha) b hb
      · dsimp only
        rw [if_neg he]
        rw [List.chain'_cons]
        refine ⟨?_, ih⟩
        intro a ha b hb
        have hhead : s.head? = some y := csl_head (y :: rest) s ss hc
        simp at ha
        rw [hhead] at hb
        simp at hb
        omega

/-- C1: for every tagged sentence (of nonempty words, the domain on which
the source does not raise), the Contraction Locator returns exactly the
indices of tokens whose surface text begins with an apostrophe and whose
tag is not the possessive tag POS, plus tokens whose surface text equals
the negation clitic; in particular a possessive-tagged apostrophe token
is never reported.  `claimMarker` is the predicate exactly as the claim
states it; the source only tests the negation clitic in an `elif`, and
the two sides agree because that clitic does not begin with an
apostrophe. -/
theorem c1_locator (sent : TaggedSent) (h : ∀ wp ∈ sent, wp.1 ≠ "") :
    extract_contractions sent
      = some (if (claimIndicesFrom 0 sent).isEmpty then none
              else some (claimIndicesFrom 0 sent)) := by
  unfold extract_contractions
  rw [collect_eq sent 0 h]
  rfl

/-- Witness for C1 at a concrete sentence containing one contraction
marker and one possessive-tagged apostrophe token: only index 1 is
reported. -/
theorem c1_locator_witness :
    (∀ wp ∈ sentC1, wp.1 ≠ "") ∧ extract_contractions sentC1 = some (some [1]) := by
  refine ⟨by decide, ?_⟩
  rw [c1_locator sentC1 (by decide)]
  decide

/-- C5: the Span Grouper partitions any (in particular any ascending)
marker index list into runs that concatenate back to the list, are
nonempty, are internally consecutive (each adjacent pair differs by
exactly 1), and are maximal (no run could absorb the head of the next
run); and the span of a run prepends the index immediately preceding its
first element, so the two adjacent markers located in a sentence like
the two-marker span starting at index 1 yield the single merged span
[0, 1, 2], never two spans. -/
theorem c5_grouping (l : List Int) :
    (consecutive_sub_list l).flatten = l
    ∧ (∀ r ∈ consecutive_sub_list l, r ≠ [] ∧ r.Chain' (fun a b => b = a + 1))
    ∧ (consecutive_sub_list l).Chain'
        (fun r s => ∀ a ∈ r.getLast?, ∀ b ∈ s.head?, b ≠ a + 1)
    ∧ (consecutive_sub_list [1, 2]).map consRun = [[0, 1, 2]] :=
  ⟨csl_join l, csl_runs l, csl_maximal l, by decide⟩

/-- C3: the code is at odds with the claim (and with its own comment on
lines 108-110): with `argmax` disabled and a uniquely-maximal candidate,
the Disambiguator still reaches the maximum-count selection step
(`chooseReplacement` with `argmax := false` picks the maximal candidate,
because the assignment of the empty replacement lacks an `else` and is
overwritten) and the span is replaced rather than left unchanged. -/
theorem c3_argmax_fallthrough :
    disambiguate toks3 [0, 1] dmapA 1 false = some (["a", "would", "yy"], none)
    ∧ (["a", "would", "yy"] : List String) ≠ ["a", "'d", "yy"]
    ∧ chooseReplacement dmapA KA false = some (some "a would") := by decide

/-- C4: the code is at odds with the claim: for the locator output `[0]`
on a one-token sentence, the Span Grouper silently forms the span
`[-1, 0]` (the Python slice normalizes the negative start instead of
failing), yields it with the expansion candidates, and the surrounding
sentence processing then crashes with an `IndexError` instead of
detecting the malformed run or skipping it with a diagnostic. -/
theorem c4_negative_span :
    extract_replacements [0] [("'s", "VBZ")] cmap4 = some [([-1, 0], ["'s"], [["is"]])]
    ∧ expandSentence cmap4 dmap1 1 [("'s", "VBZ")] = none := by decide

/-- C7: the code is at odds with the claim: when the only span of a
sentence misses the dictionary both case-sensitively and
case-insensitively, the span is skipped, but the sentence variable is
never reset to the word-only list, so the appended output sentence is
the still-tagged (word, tag) pairs rather than the unchanged word
sequence. -/
theorem c7_tagged_output :
    expandSentence ([] : CMap) dmap1 1 sent7 = some (sent7.map Sum.inl)
    ∧ sent7.map Sum.inl ≠ sent7.map (fun wp => Sum.inr wp.1) := by decide

/-- C9: the code is at odds with the claim: re-running the top-level
expansion on its own output changes it again.  On the first run the
ambiguous first span is resolved by the Disambiguator, but the later
unambiguous span resets the sentence variable to the working copy,
discarding that resolution; the second run then applies it.  The tagger
is a fixed wordwise assignment, so the divergence is not a tagging
artifact. -/
theorem c9_not_idempotent :
    expand_contractions tagger9 cmap9 dmapA [["a", "'d", "yy", "i", "'m"]]
      = some [["a", "'d", "yy", "i", "am"].map Sum.inr]
    ∧ expand_contractions tagger9 cmap9 dmapA [["a", "'d", "yy", "i", "am"]]
      = some [["a", "would", "yy", "i", "am"].map Sum.inr]
    ∧ (["a", "would", "yy", "i", "am"] : List String) ≠ ["a", "'d", "yy", "i", "am"] := by decide

/-- C10: the code is at odds with the claim: after an unambiguous span is
expanded, the sentence variable holds bare words, and the Disambiguator
invoked for the next (ambiguous, unresolvable) span then treats each
word as a (word, tag) tuple, collapsing every token of the sentence to
its first character: tokens far outside every span ("sure", "go") do not
keep their surface text. -/
theorem c10_frame_broken :
    expand_contractions tagger10 cmap10 dmap1 [["We", "'re", "sure", "she", "'d", "go"]]
      = some [["W", "a", "s", "s", "'", "g"].map Sum.inr]
    ∧ (["W", "a", "s", "s", "'", "g"] : List String)
        ≠ ["We", "are", "sure", "she", "'d", "go"] := by decide

/-- C2 counterexample: an ambiguous span whose disambiguation key is
absent from the table (the table is empty), yet the span's surface is
changed: its first word "McDonald" comes back as "Mcdonald", because the
source lower-cases the sentence-initial token and restores it with
Python title-casing. -/
theorem c2_cex :
    disambiguate ([("McDonald", "NNP"), ("'s", "VBZ"), ("gone", "VBN")].map Sum.inl)
        [0, 1] ([] : DMap) 1 true
      = some (["Mcdonald", "'s", "gone"], some (Sum.inl ("mcdonald", "NNP")))
    ∧ ("Mcdonald" : String) ≠ "McDonald" := by decide

/-- C6 counterexample: the lowercased key matches and the original key
is capitalized, but the candidates come back as Python
`str.capitalize()` of each phrase (only the first word capitalized, the
rest lower-cased), not with the first letter of every word capitalized
as the claim states: the code yields "It is"/"It has", not
"It Is"/"It Has". -/
theorem c6_cex :
    resolveRun cmap6 [("It", "PRP"), ("'s", "VBZ")] [1]
      = RRes.yield ([0, 1], ["It", "'s"], [["It", "is"], ["It", "has"]])
    ∧ ([["It", "is"], ["It", "has"]] : List (List String))
        ≠ [["It", "Is"], ["It", "Has"]] := by decide

/-- C8 counterexample: for the sentence-initial word "IT" the
Disambiguator returns "It", not the original capitalization "IT": the
restoration step is Python title-casing of the lower-cased word, which
preserves the original only when it was in title form. -/
theorem c8_cex :
    disambiguate ([("IT", "PRP"), ("'s", "VBZ"), ("x", "NN")].map Sum.inl)
        [0, 1] dmap8c 1 true
      = some (["It", "is", "x"], some (Sum.inl ("it", "PRP")))
    ∧ ("It" : String) ≠ "IT" := by decide

theorem singleton_ne_NE (c : Char) : (String.mk [c] != "<NE>") = true := by
  rw [bne_iff_ne]
  intro h
  have h2 : (String.mk [c]).length = ("<NE>" : String).length := by rw [h]
  rw [show ("<NE>" : String).length = 4 from rfl] at h2
  rw [show (String.mk [c]).length = 1 from rfl] at h2
  omega

theorem pyGet_zero_cons {α : Type} (a : α) (l : List α) : pyGet (a :: l) 0 = some a := by
  simp [pyGet, pyNorm]

theorem pySet_zero_cons {α : Type} (a b : α) (l : List α) :
    pySet (a :: l) 0 b = some (b :: l) := by
  unfold pySet pyNorm
  have h1 : ¬ ((0 : Int) < 0) := by omega
  have h2 : (0 : Int) ≤ 0 ∧ (0 : Int) < ((a :: l).length : Int) := by
    refine ⟨le_refl 0, ?_⟩
    have : 0 < (a :: l).length := Nat.succ_pos _
    exact_mod_cast this
  rw [if_neg h1, if_pos h2]
  rfl

theorem remove_pos_tags_map_inl (sent : TaggedSent) :
    remove_pos_tags (sent.map Sum.inl) = some (sent.map Prod.fst) := by
  induction sent with
  | nil => rfl
  | cons wp rest ih =>
    simp only [List.map_cons, remove_pos_tags, mapOpt] at ih ⊢
    rw [ih]
    rfl

theorem choose_absentOrTie (dmap : DMap) (key : DKey) (argmax : Bool)
    (h : absentOrTie dmap key = true) : chooseReplacement dmap key argmax = some none := by
  unfold absentOrTie at h
  unfold chooseReplacement
  cases hl : lookupD dmap key with
  | none => rfl
  | some vals =>
    rw [hl] at h
    dsimp only at h
    dsimp only
    cases hm : pyMax (vals.map Prod.snd) with
    | none => rw [hm] at h; simp at h
    | some m =>
      rw [hm] at h
      dsimp only at h
      simp only [decide_eq_true_eq] at h
      have hlen : ¬ (vals.length = 1) := by
        intro h1
        have hc := List.count_le_length m (vals.map Prod.snd)
        rw [List.length_map, h1] at hc
        omega
      rw [if_neg hlen]
      dsimp only
      have hcnt : ¬ ((vals.map Prod.snd).count m = 1) := by omega
      rw [if_neg hcnt]

/-- C2 (amended): for every ambiguous span over a properly tagged
sentence, if the disambiguation key is absent from the table or tied at
the maximum count, the Disambiguator raises no exception and leaves every
token unchanged except the sentence-initial one, which, when it starts
with an upper-case letter, comes back as the Python title-casing of its
lower-casing (the identity for ordinary capitalized words, but not for
words like "McDonald").  The key is the one the source builds after
lower-casing a capitalized first token. -/
theorem c2_amended (w0 t0 : String) (c : Char) (rest : TaggedSent) (idxs : List Int)
    (dmap : DMap) (k : Nat) (key : DKey)
    (hc : w0.data.head? = some c)
    (hkey : disambKey ((if c.isUpper then Sum.inl (pyLower w0, t0) else Sum.inl (w0, t0))
        :: rest.map Sum.inl) idxs k = some key)
    (habs : absentOrTie dmap key = true) :
    disambiguate (((w0, t0) :: rest).map Sum.inl) idxs dmap k true
      = some ((if c.isUpper then pyTitle (pyLower w0) else w0) :: rest.map Prod.fst,
              if c.isUpper then some (Sum.inl (pyLower w0, t0)) else none) := by
  have hch := choose_absentOrTie dmap key true habs
  simp only [List.map_cons]
  unfold disambiguate
  rw [pyGet_zero_cons]
  dsimp only [tokSub0]
  rw [hc]
  dsimp only
  rw [singleton_ne_NE c, Bool.and_true]
  cases hu : c.isUpper with
  | true =>
    rw [hu, if_pos rfl] at hkey
    rw [if_pos rfl]
    dsimp only [tokSub1]
    rw [pySet_zero_cons]
    dsimp only
    rw [hkey]
    dsimp only
    rw [hch]
    dsimp only
    unfold applyReplacement
    rw [show (Sum.inl (pyLower w0, t0) :: List.map Sum.inl rest : List PTok)
        = List.map Sum.inl ((pyLower w0, t0) :: rest) from rfl]
    rw [remove_pos_tags_map_inl]
    dsimp only [List.map_cons]
    simp
  | false =>
    rw [hu, if_neg Bool.false_ne_true] at hkey
    rw [if_neg Bool.false_ne_true]
    rw [hkey]
    dsimp only
    rw [hch]
    dsimp only
    unfold applyReplacement
    rw [show (Sum.inl (w0, t0) :: List.map Sum.inl rest : List PTok)
        = List.map Sum.inl ((w0, t0) :: rest) from rfl]
    rw [remove_pos_tags_map_inl]
    dsimp only [List.map_cons]
    simp

theorem mapOpt_length {α β : Type} (f : α → Option β) :
    ∀ (l : List α) (bs : List β), mapOpt f l = some bs → bs.length = l.length := by
  intro l
  induction l with
  | nil =>
    intro bs h
    simp only [mapOpt, Option.some.injEq] at h
    subst h
    rfl
  | cons a t ih =>
    intro bs h
    unfold mapOpt at h
    cases hf : f a with
    | none => rw [hf] at h; simp at h
    | some b =>
      rw [hf] at h
      cases hm : mapOpt f t with
      | none => rw [hm] at h; simp at h
      | some bs2 =>
        rw [hm] at h
        dsimp only at h
        injection h with h2
        subst h2
        simp [ih bs2 hm]

theorem pySet_some {α : Type} {l : List α} {i : Int} {a : α} {l2 : List α}
    (h : pySet l i a = some l2) :
    l2 = l.set (pyNorm l.length i).toNat a ∧ l2.length = l.length := by
  unfold pySet at h
  dsimp only at h
  split at h
  · injection h with h2
    subst h2
    exact ⟨rfl, List.length_set l _ a⟩
  · cases h

theorem applyLoop_length (ws : List String) :
    ∀ (l : List (Nat × Int)) (words out : List String),
      applyLoop ws l words = some out → out.length = words.length := by
  intro l
  induction l with
  | nil =>
    intro words out h
    unfold applyLoop at h
    injection h with h2
    rw [h2]
  | cons p t ih =>
    intro words out h
    obtain ⟨j, idx⟩ := p
    unfold applyLoop at h
    cases hw : ws.get? j with
    | none => rw [hw] at h; dsimp only at h; simp at h
    | some w =>
      rw [hw] at h
      dsimp only at h
      cases hs : pySet words idx w with
      | none => rw [hs] at h; dsimp only at h; simp at h
      | some words2 =>
        rw [hs] at h
        dsimp only at h
        rw [ih words2 out h, (pySet_some hs).2]

theorem applyLoop_frame (ws : List String) :
    ∀ (l : List (Nat × Int)) (words out : List String), applyLoop ws l words = some out →
      ∀ i : Nat, (∀ p ∈ l, (pyNorm words.length p.2).toNat ≠ i) →
        out.get? i = words.get? i := by
  intro l
  induction l with
  | nil =>
    intro words out h i _
    unfold applyLoop at h
    injection h with h2
    rw [h2]
  | cons p t ih =>
    intro words out h i hni
    obtain ⟨j, idx⟩ := p
    unfold applyLoop at h
    cases hw : ws.get? j with
    | none => rw [hw] at h; dsimp only at h; simp at h
    | some w =>
      rw [hw] at h
      dsimp only at h
      cases hs : pySet words idx w with
      | none => rw [hs] at h; dsimp only at h; simp at h
      | some words2 =>
        rw [hs] at h
        dsimp only at h
        obtain ⟨heq, hlen⟩ := pySet_some hs
        have hstep : words2.get? i = words.get? i := by
          rw [heq]
          exact List.get?_set_ne _ _ (hni (j, idx) (by simp))
        have htail : out.get? i = words2.get? i := by
          apply ih words2 out h i
          intro p hp
          rw [hlen]
          exact hni p (by simp [hp])
        rw [htail, hstep]

theorem mem_enumFrom_snd {α : Type} :
    ∀ (l : List α) (n : Nat) (p : Nat × α), p ∈ List.enumFrom n l → p.2 ∈ l := by
  intro l
  induction l with
  | nil => intro n p h; simp [List.enumFrom] at h
  | cons a t ih =>
    intro n p h
    rw [show List.enumFrom n (a :: t) = (n, a) :: List.enumFrom (n + 1) t from rfl] at h
    rcases List.mem_cons.mp h with h1 | h2
    · subst h1; simp
    · exact List.mem_cons_of_mem _ (ih (n + 1) p h2)

theorem applyReplacement_inl (sent1 : TaggedSent) (idxs : List Int) (r : Option String)
    (mid : List String) (happ : applyReplacement (sent1.map Sum.inl) idxs r = some mid) :
    mid.length = sent1.length
    ∧ ∀ i : Nat, (∀ j ∈ idxs, (pyNorm sent1.length j).toNat ≠ i) →
        mid.get? i = (sent1.map Prod.fst).get? i := by
  unfold applyReplacement at happ
  rw [remove_pos_tags_map_inl] at happ
  dsimp only at happ
  cases r with
  | none =>
    injection happ with h2
    subst h2
    exact ⟨by simp, fun i _ => rfl⟩
  | some s =>
    refine ⟨by rw [applyLoop_length _ _ _ _ happ]; simp, ?_⟩
    intro i hni
    apply applyLoop_frame _ _ _ _ happ
    intro p hp
    rw [List.length_map]
    exact hni p.2 (mem_enumFrom_snd idxs 0 p hp)

/-- C8 (amended): for every properly tagged sentence whose first word is
capitalized, the Disambiguator lowercases the first token before building
the disambiguation key (the `hkey` hypothesis is stated on the sentence
with the lowered first token), and the returned sentence is the applied
replacement with its first word restored by Python title-casing; hence
the first word keeps its original capitalization exactly when that was
title form, and no token outside the span positions other than the first
gains or loses capitalization (they are returned verbatim). -/
theorem c8_amended (w0 t0 : String) (c : Char) (rest : TaggedSent) (idxs : List Int)
    (dmap : DMap) (k : Nat) (key : DKey) (r : Option String) (mid : List String)
    (hc : w0.data.head? = some c) (hu : c.isUpper = true)
    (hkey : disambKey (Sum.inl (pyLower w0, t0) :: rest.map Sum.inl) idxs k = some key)
    (hrep : chooseReplacement dmap key true = some r)
    (happ : applyReplacement (Sum.inl (pyLower w0, t0) :: rest.map Sum.inl) idxs r = some mid) :
    (∃ w ws, mid = w :: ws
      ∧ disambiguate (((w0, t0) :: rest).map Sum.inl) idxs dmap k true
          = some (pyTitle w :: ws, some (Sum.inl (pyLower w0, t0))))
    ∧ (∀ i : Nat, i ≠ 0 → (∀ j ∈ idxs, (pyNorm (rest.length + 1) j).toNat ≠ i) →
        mid.get? i = (((w0, t0) :: rest).map Prod.fst).get? i) := by
  have happ2 : applyReplacement (((pyLower w0, t0) :: rest).map Sum.inl) idxs r = some mid := happ
  obtain ⟨hlen, hframe⟩ := applyReplacement_inl ((pyLower w0, t0) :: rest) idxs r mid happ2
  constructor
  · cases mid with
    | nil => simp at hlen
    | cons w ws =>
      refine ⟨w, ws, rfl, ?_⟩
      simp only [List.map_cons]
      unfold disambiguate
      rw [pyGet_zero_cons]
      dsimp only [tokSub0]
      rw [hc]
      dsimp only
      rw [singleton_ne_NE c, Bool.and_true, hu, if_pos rfl]
      dsimp only [tokSub1]
      rw [pySet_zero_cons]
      dsimp only
      rw [hkey]
      dsimp only
      rw [hrep]
      dsimp only
      rw [happ]
  · intro i hi hni
    have h1 := hframe i (by simpa using hni)
    rw [h1]
    cases i with
    | zero => exact absurd rfl hi
    | succ i2 => rfl

/-- C6 (amended): for every span whose joined key has no exact match but
whose lower-casing matches, if the first character of the key is
upper-case the Expansion Resolver yields the candidate phrases
transformed by Python `str.capitalize` (first character of the phrase
upper-cased, every other character lower-cased, so only the first word
gets a capital), and if the first character is not upper-case the
iteration faults (the source assigns nothing to its local variable)
rather than yielding the candidates unmodified. -/
theorem c6_amended (cmap : CMap) (sent : TaggedSent) (run : List Int) (exp : List String)
    (c : Char)
    (h1 : lookupC cmap (joinedOf sent run) = none)
    (h2 : lookupC cmap (pyLower (joinedOf sent run)) = some exp)
    (h3 : (joinedOf sent run).data.head? = some c) :
    (c.isUpper = true →
      resolveRun cmap sent run
        = RRes.yield (consRun run, contrOf sent (consRun run),
            (exp.map pyCapitalize).map pySplit))
    ∧ (c.isUpper = false → resolveRun cmap sent run = RRes.crash) := by
  unfold resolveRun
  rw [h1]
  dsimp only
  rw [h2]
  dsimp only
  rw [h3]
  dsimp only
  constructor
  · intro h
    rw [if_pos h]
  · intro h
    rw [if_neg (by rw [h]; exact Bool.false_ne_true)]

/-- Witness for C2 (amended) at a tie: "It's x" with both candidate
counts equal is returned unchanged (the title-cased restoration equals
the original here), with no exception. -/
theorem c2_amended_witness :
    (("It" : String).data.head? = some 'I')
    ∧ (disambKey ((if ('I').isUpper then Sum.inl (pyLower "It", "PRP")
          else Sum.inl ("It", "PRP"))
        :: ([("'s", "VBZ"), ("x", "NN")] : TaggedSent).map Sum.inl) [0, 1] 1 = some KT)
    ∧ (absentOrTie dmapT KT = true)
    ∧ disambiguate (([("It", "PRP"), ("'s", "VBZ"), ("x", "NN")] : TaggedSent).map Sum.inl)
        [0, 1] dmapT 1 true
      = some (["It", "'s", "x"], some (Sum.inl ("it", "PRP"))) := by
  refine ⟨by decide, by decide, by decide, ?_⟩
  rw [c2_amended "It" "PRP" 'I' [("'s", "VBZ"), ("x", "NN")] [0, 1] dmapT 1 KT
    (by decide) (by decide) (by decide)]
  decide

/-- Witness for C6 (amended): "She'd" misses exactly, matches
lower-cased, and the candidate phrase comes back Python-capitalized. -/
theorem c6_amended_witness :
    (lookupC cmap6w (joinedOf [("She", "PRP"), ("'d", "MD")] [1]) = none)
    ∧ (lookupC cmap6w (pyLower (joinedOf [("She", "PRP"), ("'d", "MD")] [1]))
        = some ["she would"])
    ∧ ((joinedOf [("She", "PRP"), ("'d", "MD")] [1]).data.head? = some 'S')
    ∧ resolveRun cmap6w [("She", "PRP"), ("'d", "MD")] [1]
        = RRes.yield ([0, 1], ["She", "'d"], [["She", "would"]]) := by
  refine ⟨by decide, by decide, by decide, ?_⟩
  rw [(c6_amended cmap6w [("She", "PRP"), ("'d", "MD")] [1] ["she would"] 'S'
    (by decide) (by decide) (by decide)).1 (by decide)]
  decide

/-- Witness for C8 (amended) at the sentence of the spec example:
"It's not what ..." resolves to "It is not what ..." with the capital
restored on the first word. -/
theorem c8_amended_witness :
    (("It" : String).data.head? = some 'I') ∧ ('I'.isUpper = true)
    ∧ (disambKey (Sum.inl (pyLower "It", "PRP")
        :: ([("'s", "VBZ"), ("not", "RB"), ("what", "WP")] : TaggedSent).map Sum.inl)
        [0, 1] 1 = some K8w)
    ∧ (chooseReplacement dmap8w K8w true = some (some "it is"))
    ∧ (applyReplacement (Sum.inl (pyLower "It", "PRP")
        :: ([("'s", "VBZ"), ("not", "RB"), ("what", "WP")] : TaggedSent).map Sum.inl)
        [0, 1] (some "it is") = some ["it", "is", "not", "what"])
    ∧ (∃ w ws, (["it", "is", "not", "what"] : List String) = w :: ws
        ∧ disambiguate (([("It", "PRP"), ("'s", "VBZ"), ("not", "RB"), ("what", "WP")] :
              TaggedSent).map Sum.inl) [0, 1] dmap8w 1 true
            = some (pyTitle w :: ws, some (Sum.inl (pyLower "It", "PRP")))) := by
  refine ⟨by decide, by decide, by decide, by decide, by decide, ?_⟩
  exact (c8_amended "It" "PRP" 'I' [("'s", "VBZ"), ("not", "RB"), ("what", "WP")] [0, 1]
    dmap8w 1 K8w (some "it is") ["it", "is", "not", "what"]
    (by decide) (by decide) (by decide) (by decide) (by decide)).1
